import Mathlib

/-!
Verification of the Dashboard-MTP repository (a Streamlit analytics dashboard
over a Supabase backend).

The development shallowly embeds the Python functions named in the claims:

* `src/utils.py` — `MetricsCalculator.calculate_churn_probability`,
  `MetricsCalculator.calculate_engagement_score`,
  `DataValidator.validate_trips_data`;
* `src/supabase_client.py` — `RateLimiter.wait_if_needed`,
  `SupabaseManager.execute_with_retry`, `SupabaseManager.get_metrics`,
  `SupabaseManager.reset_metrics`, the `SupabaseManager` singleton
  (`__new__` / `__init__`), `ConnectionPool.is_healthy` /
  `perform_health_check`;
* `src/dashboard.py` — `get_active_users`, `get_revenue_metrics`.

Python floats are modelled as exact rationals (`ℚ`), Python ints as `ℤ`/`ℕ`,
wall-clock time as a nondeterministic monotone `ℚ`-valued oracle, and
exceptions as `Except`/`Option` values or Boolean failure oracles.
-/

namespace DashboardMTP

/-! ## `utils.py`: MetricsCalculator.calculate_churn_probability

Python source (src/utils.py, lines 190-205):
```
if last_activity_days <= 7:   return 0.05
elif last_activity_days <= 14: return 0.15
elif last_activity_days <= 30: return 0.40
elif last_activity_days <= 60: return 0.75
else:                          return 0.95
```
-/

def calculate_churn_probability (lastActivityDays : ℤ) : ℚ :=
  if lastActivityDays ≤ 7 then 0.05
  else if lastActivityDays ≤ 14 then 0.15
  else if lastActivityDays ≤ 30 then 0.40
  else if lastActivityDays ≤ 60 then 0.75
  else 0.95

/-! ## `utils.py`: MetricsCalculator.calculate_engagement_score

Python source (src/utils.py, lines 207-224):
```
trip_score = min(trip_count / 50, 1) * 30
frequency_score = min((trip_count / max(days_active, 1)) * 10, 1) * 25
recency_score = max(0, (30 - last_activity_days) / 30) * 25
distance_score = min(total_distance / 1000, 1) * 20
total_score = trip_score + frequency_score + recency_score + distance_score
return round(total_score, 1)
```
`round` is Python's bankers rounding (ties to even); `round(x, 1)` is
modelled as `pythonRound (10 * x) / 10`.
-/

/-- Python `round` builtin on an exact rational: round half to even. -/
def pythonRound (x : ℚ) : ℤ :=
  if x - ⌊x⌋ = 1/2 then (if Even ⌊x⌋ then ⌊x⌋ else ⌊x⌋ + 1) else round x

def trip_score (tripCount : ℤ) : ℚ := min ((tripCount : ℚ) / 50) 1 * 30

def frequency_score (tripCount daysActive : ℤ) : ℚ :=
  min (((tripCount : ℚ) / ((max daysActive 1 : ℤ) : ℚ)) * 10) 1 * 25

def recency_score (lastActivityDays : ℤ) : ℚ :=
  max 0 ((30 - (lastActivityDays : ℚ)) / 30) * 25

def distance_score (totalDistance : ℚ) : ℚ := min (totalDistance / 1000) 1 * 20

def calculate_engagement_score (tripCount daysActive lastActivityDays : ℤ)
    (totalDistance : ℚ) : ℚ :=
  let totalScore := trip_score tripCount + frequency_score tripCount daysActive +
    recency_score lastActivityDays + distance_score totalDistance
  (pythonRound (10 * totalScore) : ℚ) / 10

/-! ## `utils.py`: DataValidator.validate_trips_data

Python source (src/utils.py, lines 87-115).  A raw trip record may lack the
`distance`/`duration`/`created_at` columns or hold non-numeric /
non-timestamp values; `pd.to_numeric(..., errors='coerce')` turns those into
NaN (modelled `none`) and `.fillna(0)` replaces NaN by 0; an unparseable
`created_at` becomes NaT (modelled `none`), and `NaT <= now` is false, so the
row is dropped by the final filter.
-/

structure TripRecord where
  id : Option ℤ
  user_id : Option ℤ
  distance : Option ℚ
  duration : Option ℚ
  created_at : Option ℚ
deriving DecidableEq

structure CleanTrip where
  id : Option ℤ
  user_id : Option ℤ
  distance : ℚ
  duration : ℚ
  created_at : Option ℚ
deriving DecidableEq

def validate_trips_data (data : List TripRecord) (now : ℚ) : List CleanTrip :=
  if data = [] then []
  else
    let coerced := data.map fun r =>
      CleanTrip.mk r.id r.user_id (r.distance.getD 0) (r.duration.getD 0) r.created_at
    let posDistance := coerced.filter fun r => decide (0 < r.distance)
    let posDuration := posDistance.filter fun r => decide (0 < r.duration)
    posDuration.filter fun r =>
      match r.created_at with
      | some t => decide (t ≤ now)
      | none => false

/-! ## `supabase_client.py`: SupabaseManager.execute_with_retry

Python source (src/supabase_client.py, lines 252-275).  The wrapped call is
modelled as `f : ℕ → Except ε α` giving the outcome of attempt `i` (0-based).
`RetryOutcome` records the returned/raised value (`result = none` only in the
degenerate `max_retries = 0` case, where Python's `for` body never runs and
the function returns `None`), the increments applied to `query_count` and
`query_errors`, and the durations passed to `time.sleep`, in order.  The
`rate_limiter.wait_if_needed()` call at the top of each attempt is modelled
separately (see `wait_if_needed` below).
-/

structure RetryOutcome (ε α : Type) where
  result : Option (Except ε α)
  succ : ℕ
  errs : ℕ
  sleeps : List ℚ

def retryFrom (f : ℕ → Except ε α) (maxRetries attempt : ℕ) (delay : ℚ) :
    RetryOutcome ε α :=
  match f attempt with
  | .ok a => ⟨some (.ok a), 1, 0, []⟩
  | .error e =>
    if _h : attempt + 1 < maxRetries then
      let r := retryFrom f maxRetries (attempt + 1) (delay * 2)
      ⟨r.result, r.succ, r.errs + 1, delay :: r.sleeps⟩
    else ⟨some (.error e), 0, 1, []⟩
termination_by maxRetries - attempt

def execute_with_retry (maxRetries : ℕ) (f : ℕ → Except ε α) : RetryOutcome ε α :=
  if maxRetries = 0 then ⟨none, 0, 0, []⟩ else retryFrom f maxRetries 0 (1/2)

/-- `max_retries` in the production configuration
(`SupabaseConfig.get_config`, src/supabase_client.py line 53). -/
def production_max_retries : ℕ := 3

/-- `True` iff the wrapped call eventually returned a value (no re-raise). -/
def RetryOutcome.isSuccess (r : RetryOutcome ε α) : Bool :=
  match r.result with
  | some (.ok _) => true
  | _ => false

/-! ## `supabase_client.py`: query metrics

`get_metrics` (lines 320-336) and `reset_metrics` (lines 338-343) over the
`query_count` / `query_errors` counters mutated by `execute_with_retry`.
-/

structure MgrCounters where
  query_count : ℕ
  query_errors : ℕ
deriving DecidableEq

/-- Counter state right after `reset_metrics` (or `__init__`). -/
def reset_metrics : MgrCounters := ⟨0, 0⟩

/-- Run a sequence of `execute_with_retry` calls starting from freshly reset
counters, accumulating the `query_count` / `query_errors` increments. -/
def run_queries (maxRetries : ℕ) (fs : List (ℕ → Except ε α)) : MgrCounters :=
  fs.foldl
    (fun c f =>
      let r := execute_with_retry maxRetries f
      ⟨c.query_count + r.succ, c.query_errors + r.errs⟩)
    reset_metrics

/-- The `success_rate` entry of `get_metrics`. -/
def success_rate (c : MgrCounters) : ℚ :=
  if 0 < c.query_count then
    ((c.query_count : ℚ) - (c.query_errors : ℚ)) / (c.query_count : ℚ) * 100
  else 0

structure QueryMetrics where
  total_queries : ℕ
  failed_queries : ℕ
  rate : ℚ
deriving DecidableEq

/-- The query-related entries of the dict returned by `get_metrics`. -/
def get_metrics (c : MgrCounters) : QueryMetrics :=
  ⟨c.query_count, c.query_errors, success_rate c⟩

/-! ## `supabase_client.py`: RateLimiter.wait_if_needed

Python source (src/supabase_client.py, lines 84-108).  Wall-clock time is a
nondeterministic oracle: each call supplies `cur`, the value of the first
`time.time()` read (monotone: at least the previous read), and `slack ≥ 0`,
the extra real time that elapses during `time.sleep(sleep_time)` beyond the
requested duration, so the second `time.time()` read returns
`cur + sleep_time + slack`.
-/

/-- `self.call_times = [t for t in self.call_times if current_time - t < 1.0]` -/
def rl_prune (cur : ℚ) (ts : List ℚ) : List ℚ :=
  ts.filter fun t => decide (cur - t < 1)

structure RLResult where
  call_times : List ℚ
  admitted : ℚ
  slept : Bool
deriving DecidableEq

def wait_if_needed (n : ℕ) (ts : List ℚ) (cur slack : ℚ) : RLResult :=
  let pruned := rl_prune cur ts
  if n ≤ pruned.length then
    let first := pruned.headI
    let sleep_time := 1 - (cur - first)
    if 0 < sleep_time then
      let cur2 := cur + sleep_time + slack
      ⟨pruned ++ [cur2], cur2, true⟩
    else ⟨pruned ++ [cur], cur, false⟩
  else ⟨pruned ++ [cur], cur, false⟩

/-- Execute a sequence of `wait_if_needed` calls from state
(`call_times = ts`, `last_call = last`); returns the final state. -/
def rl_run_from (n : ℕ) (ts : List ℚ) (last : ℚ) :
    List (ℚ × ℚ) → List ℚ × ℚ
  | [] => (ts, last)
  | (cur, slack) :: rest =>
    let r := wait_if_needed n ts cur slack
    rl_run_from n r.call_times r.admitted rest

/-- Execute from the initial `RateLimiter.__init__` state
(`call_times = []`, `last_call = 0`). -/
def rl_run (n : ℕ) (inputs : List (ℚ × ℚ)) : List ℚ × ℚ :=
  rl_run_from n [] 0 inputs

/-- The clock oracle is well-formed: each call's first `time.time()` read is
at least the previous read, and sleeping never shortens real time. -/
def valid_inputs (n : ℕ) (ts : List ℚ) (last : ℚ) : List (ℚ × ℚ) → Bool
  | [] => true
  | (cur, slack) :: rest =>
    decide (last ≤ cur) && decide (0 ≤ slack) &&
      valid_inputs n (wait_if_needed n ts cur slack).call_times
        (wait_if_needed n ts cur slack).admitted rest

/-- Any `n + 1` recorded admission times span at least one second: the entry
`n` positions later is at least `1.0` greater. -/
def gapProp (n : ℕ) (l : List ℚ) : Prop :=
  ∀ i j : ℕ, j < l.length → i + n ≤ j → l.getD i 0 + 1 ≤ l.getD j 0

/-- Invariant of the rate-limiter state. -/
def rlInv (n : ℕ) (ts : List ℚ) (last : ℚ) : Prop :=
  ts.Sorted (· ≤ ·) ∧ (∀ t ∈ ts, t ≤ last) ∧ gapProp n ts

/-! ## `supabase_client.py`: SupabaseManager singleton

`__new__` (lines 185-191) and `__init__` (lines 193-204).  Each constructed
Python object carries a distinct identity, modelled by a fresh `objId` drawn
from a counter; `__new__` allocates a new object only when `cls._instance` is
`None`, and `cls._instance` is never cleared.  `__init__`'s guarded body can
raise in `SupabaseConfig.get_config` (missing credentials, oracle
`configOk`) or in `_initialize_client` (connection failure, oracle
`clientOk`); `self.initialized = True` runs last.
-/

inductive PyEnvironment
  | production
  | staging
  | development
  | testing
deriving DecidableEq

structure MgrInstance where
  objId : ℕ
  env : PyEnvironment
  initialized : Bool
  config : Option PyEnvironment
  query_count : Option ℕ
  query_errors : Option ℕ
  clientReady : Bool
deriving DecidableEq

structure ConstructOutcome where
  returned : Bool
  bodyEntered : Bool
  bodyCompleted : Bool
  inst : MgrInstance
deriving DecidableEq

/-- One evaluation of `SupabaseManager(env)`: `__new__` then `__init__`.
`g` is `cls._instance`; `fresh` is the identity for a newly allocated
object.  The resulting `cls._instance` is always `some outcome.inst`. -/
def construct (g : Option MgrInstance) (fresh : ℕ) (env : PyEnvironment)
    (configOk clientOk : Bool) : ConstructOutcome :=
  let i0 := match g with
    | none => MgrInstance.mk fresh env false none none none false
    | some i => i
  if i0.initialized then ⟨true, false, false, i0⟩
  else
    let i1 := { i0 with env := env }
    if configOk then
      let i2 := { i1 with config := some env, query_count := some 0,
                          query_errors := some 0 }
      if clientOk then
        ⟨true, true, true, { i2 with clientReady := true, initialized := true }⟩
      else ⟨false, true, false, i2⟩
    else ⟨false, true, false, i1⟩

/-- Run a sequence of constructions; fresh identities are drawn from a
counter.  Returns the final `cls._instance` and each construction's
outcome. -/
def run_constructions (g : Option MgrInstance) (fresh : ℕ) :
    List (PyEnvironment × Bool × Bool) → Option MgrInstance × List ConstructOutcome
  | [] => (g, [])
  | (env, configOk, clientOk) :: rest =>
    let o := construct g fresh env configOk clientOk
    let r := run_constructions (some o.inst) (fresh + 1) rest
    (r.1, o :: r.2)

/-! ## `supabase_client.py`: ConnectionPool health checks

`is_healthy` (lines 122-129) and `perform_health_check` (lines 131-159).
`isClientInstance` models `isinstance(self.client, SupabaseClient)`; the
oracle `raises` models the outer `try` body raising before completing (the
inner table-probe `try` swallows its own exceptions and touches no state).
When the client is not a `Client` instance and nothing raises, the `try`
body falls through without a `return`, so Python returns `None`: the result
type is therefore `Option Bool`. -/

inductive PyConnectionStatus
  | connected
  | disconnected
  | connecting
  | error
deriving DecidableEq

structure PoolState where
  isClientInstance : Bool
  status : PyConnectionStatus
  last_health_check : Option ℚ
  failed_attempts : ℕ
deriving DecidableEq

/-- `timedelta(minutes=5)` in seconds. -/
def health_check_interval : ℚ := 5 * 60

def perform_health_check (s : PoolState) (raises : Bool) (now : ℚ) :
    Option Bool × PoolState :=
  if raises then
    (some false,
      { s with failed_attempts := s.failed_attempts + 1,
               status := .error })
  else if s.isClientInstance then
    (some true,
      { s with status := .connected, failed_attempts := 0,
               last_health_check := some now })
  else (none, s)

def is_healthy (s : PoolState) (raises : Bool) (now : ℚ) :
    Option Bool × PoolState :=
  match s.last_health_check with
  | none => perform_health_check s raises now
  | some t =>
    if now - t > health_check_interval then perform_health_check s raises now
    else (some (decide (s.status = .connected)), s)

/-- A health check is due: none was ever performed, or the last one is older
than the 5-minute interval. -/
def check_due (s : PoolState) (now : ℚ) : Prop :=
  s.last_health_check = none ∨
    ∃ t, s.last_health_check = some t ∧ now - t > health_check_interval

/-! ## `dashboard.py`: get_active_users

Python source (src/dashboard.py, lines 76-93).  The trips table is a list of
rows; the backend filter `.gte('created_at', cutoff)` keeps rows with
`created_at ≥ now - days`; `queryFails` models the `except` path. -/

structure DbTrip where
  user_id : ℤ
  created_at : ℚ
deriving DecidableEq

def get_active_users (trips : List DbTrip) (now days : ℚ)
    (queryFails : Bool) : ℕ :=
  if queryFails then 0
  else
    let cutoff := now - days
    let rows := trips.filter fun t => decide (cutoff ≤ t.created_at)
    if rows = [] then 0
    else ((rows.map DbTrip.user_id).dedup).length

/-! ## `dashboard.py`: get_revenue_metrics

Python source (src/dashboard.py, lines 501-556).  A profile is represented by
its `subscription_tier` string; `value_counts().to_dict()` followed by
`.get(key, 0)` is exactly `List.count key`; the `pricing` dict keeps its
insertion order; `str.lower` is modelled character-wise (all keys are ASCII).
`queryFails` models the `except` path; both it and an empty profile list
yield the empty dict, modelled as `none`. -/

def pricing : List (String × ℚ) :=
  [("free", 0), ("basic", 9.99), ("premium", 19.99),
   ("pro", 39.99), ("enterprise", 99.99)]

/-- Python `str.lower` (adequate for the ASCII keys involved). -/
def str_lower (s : String) : String := String.mk (s.data.map Char.toLower)

/-- `tier_counts.get(key, 0)` where `tier_counts` is
`df['subscription_tier'].value_counts().to_dict()`. -/
def tier_counts_get (profiles : List String) (key : String) : ℕ :=
  profiles.count key

/-- `pricing.get(key, 0)`. -/
def pricing_get (key : String) : ℚ := ((pricing.lookup key).getD 0)

structure TierStats where
  count : ℕ
  revenue : ℚ
  percentage : ℚ
deriving DecidableEq

structure RevenueMetrics where
  mrr : ℚ
  arr : ℚ
  arpu : ℚ
  total_users : ℕ
  tier_distribution : List (String × TierStats)
deriving DecidableEq

def get_revenue_metrics (profiles : List String) (queryFails : Bool) :
    Option RevenueMetrics :=
  if queryFails then none
  else if profiles = [] then none
  else
    let mrr := (pricing.map fun tp =>
      (tier_counts_get profiles (str_lower tp.1) : ℚ) * tp.2).sum
    let arr := mrr * 12
    let total := profiles.length
    let arpu := if 0 < total then mrr / (total : ℚ) else 0
    let dist := pricing.map fun tp =>
      (tp.1,
        TierStats.mk (tier_counts_get profiles tp.1)
          ((tier_counts_get profiles tp.1 : ℚ) * pricing_get tp.1)
          (if 0 < total then
            (tier_counts_get profiles tp.1 : ℚ) / (total : ℚ) * 100
          else 0))
    some ⟨mrr, arr, arpu, total, dist⟩

/-! Bounds for `pythonRound`. -/

theorem floor_le_pythonRound (x : ℚ) : ⌊x⌋ ≤ pythonRound x := by
  unfold pythonRound
  split
  · split
    · exact le_refl _
    · exact le_of_lt (lt_add_one _)
  · rw [round_eq]
    exact Int.floor_le_floor (by linarith)

theorem pythonRound_le_ceil (x : ℚ) : pythonRound x ≤ ⌈x⌉ := by
  unfold pythonRound
  have hfl := Int.floor_le x
  have hcl := Int.le_ceil x
  split
  · rename_i h
    have hlt : ⌊x⌋ < ⌈x⌉ := by
      rw [Int.lt_ceil]
      linarith
    split
    · omega
    · omega
  · rw [round_eq]
    rw [Int.floor_le_iff]
    linarith

theorem trip_score_bounds (tc : ℤ) (h : 0 ≤ tc) :
    0 ≤ trip_score tc ∧ trip_score tc ≤ 30 := by
  unfold trip_score
  have h0 : (0 : ℚ) ≤ (tc : ℚ) / 50 := by positivity
  have h1 : min ((tc : ℚ) / 50) 1 ≤ 1 := min_le_right _ _
  have h2 : (0 : ℚ) ≤ min ((tc : ℚ) / 50) 1 := le_min h0 (by norm_num)
  constructor <;> nlinarith

theorem frequency_score_bounds (tc da : ℤ) (h : 0 ≤ tc) :
    0 ≤ frequency_score tc da ∧ frequency_score tc da ≤ 25 := by
  unfold frequency_score
  have hm : (1 : ℚ) ≤ ((max da 1 : ℤ) : ℚ) := by
    have : (1 : ℤ) ≤ max da 1 := le_max_right _ _
    exact_mod_cast this
  have h0 : (0 : ℚ) ≤ (tc : ℚ) / ((max da 1 : ℤ) : ℚ) * 10 := by positivity
  have h1 : min ((tc : ℚ) / ((max da 1 : ℤ) : ℚ) * 10) 1 ≤ 1 := min_le_right _ _
  have h2 : (0 : ℚ) ≤ min ((tc : ℚ) / ((max da 1 : ℤ) : ℚ) * 10) 1 :=
    le_min h0 (by norm_num)
  constructor <;> nlinarith

theorem recency_score_bounds (lad : ℤ) (h : 0 ≤ lad) :
    0 ≤ recency_score lad ∧ recency_score lad ≤ 25 := by
  unfold recency_score
  have h1 : (30 - (lad : ℚ)) / 30 ≤ 1 := by
    rw [div_le_one (by norm_num)]
    have : (0 : ℚ) ≤ (lad : ℚ) := by exact_mod_cast h
    linarith
  have h2 : (0 : ℚ) ≤ max 0 ((30 - (lad : ℚ)) / 30) := le_max_left _ _
  have h3 : max 0 ((30 - (lad : ℚ)) / 30) ≤ 1 := max_le (by norm_num) h1
  constructor <;> nlinarith

theorem distance_score_bounds (td : ℚ) (h : 0 ≤ td) :
    0 ≤ distance_score td ∧ distance_score td ≤ 20 := by
  unfold distance_score
  have h0 : (0 : ℚ) ≤ td / 1000 := by positivity
  have h1 : min (td / 1000) 1 ≤ 1 := min_le_right _ _
  have h2 : (0 : ℚ) ≤ min (td / 1000) 1 := le_min h0 (by norm_num)
  constructor <;> nlinarith

/-- **C10.** For all nonnegative inputs, `calculate_engagement_score` returns a
value between 0 and 100 inclusive, and its four components are capped at
30 (trips), 25 (frequency), 25 (recency) and 20 (distance), each nonnegative. -/
theorem C10_engagement_score_in_range (tc da lad : ℤ) (td : ℚ)
    (htc : 0 ≤ tc) (hda : 0 ≤ da) (hlad : 0 ≤ lad) (htd : 0 ≤ td) :
    (0 ≤ calculate_engagement_score tc da lad td ∧
      calculate_engagement_score tc da lad td ≤ 100) ∧
    (0 ≤ trip_score tc ∧ trip_score tc ≤ 30) ∧
    (0 ≤ frequency_score tc da ∧ frequency_score tc da ≤ 25) ∧
    (0 ≤ recency_score lad ∧ recency_score lad ≤ 25) ∧
    (0 ≤ distance_score td ∧ distance_score td ≤ 20) := by
  obtain ⟨t0, t1⟩ := trip_score_bounds tc htc
  obtain ⟨f0, f1⟩ := frequency_score_bounds tc da htc
  obtain ⟨r0, r1⟩ := recency_score_bounds lad hlad
  obtain ⟨d0, d1⟩ := distance_score_bounds td htd
  refine ⟨?_, ⟨t0, t1⟩, ⟨f0, f1⟩, ⟨r0, r1⟩, ⟨d0, d1⟩⟩
  unfold calculate_engagement_score
  set S := trip_score tc + frequency_score tc da + recency_score lad +
    distance_score td with hS
  have hS0 : (0 : ℚ) ≤ S := by linarith
  have hS100 : S ≤ 100 := by linarith
  have hlo : (0 : ℤ) ≤ pythonRound (10 * S) := by
    have := floor_le_pythonRound (10 * S)
    have hfl : (0 : ℤ) ≤ ⌊(10 : ℚ) * S⌋ := Int.floor_nonneg.mpr (by linarith)
    omega
  have hhi : pythonRound (10 * S) ≤ 1000 := by
    have := pythonRound_le_ceil (10 * S)
    have hcl : ⌈(10 : ℚ) * S⌉ ≤ 1000 := Int.ceil_le.mpr (by push_cast; linarith)
    omega
  constructor
  · have : (0 : ℚ) ≤ (pythonRound (10 * S) : ℚ) := by exact_mod_cast hlo
    linarith
  · have : (pythonRound (10 * S) : ℚ) ≤ 1000 := by exact_mod_cast hhi
    linarith

/-- Witness for C10 at trip_count 10, days_active 5, last_activity_days 3,
total_distance 100. -/
theorem C10_engagement_score_in_range_witness :
    (0 ≤ calculate_engagement_score 10 5 3 100 ∧
      calculate_engagement_score 10 5 3 100 ≤ 100) ∧
    (0 ≤ trip_score 10 ∧ trip_score 10 ≤ 30) ∧
    (0 ≤ frequency_score 10 5 ∧ frequency_score 10 5 ≤ 25) ∧
    (0 ≤ recency_score 3 ∧ recency_score 3 ≤ 25) ∧
    (0 ≤ distance_score 100 ∧ distance_score 100 ≤ 20) :=
  C10_engagement_score_in_range 10 5 3 100 (by norm_num) (by norm_num)
    (by norm_num) (by norm_num)

/-- **C9.** `calculate_churn_probability` is monotone nondecreasing, and every
result lies in the set `{0.05, 0.15, 0.40, 0.75, 0.95}`, hence within
`[0.05, 0.95]`. -/
theorem C9_churn_probability_monotone_range :
    (∀ a b : ℤ, a ≤ b →
      calculate_churn_probability a ≤ calculate_churn_probability b) ∧
    (∀ x : ℤ, calculate_churn_probability x ∈
        ({0.05, 0.15, 0.40, 0.75, 0.95} : Set ℚ) ∧
      0.05 ≤ calculate_churn_probability x ∧
      calculate_churn_probability x ≤ 0.95) := by
  constructor
  · intro a b hab
    unfold calculate_churn_probability
    split_ifs <;> first | omega | norm_num
  · intro x
    unfold calculate_churn_probability
    refine ⟨?_, ?_, ?_⟩ <;>
      split_ifs <;> norm_num [Set.mem_insert_iff, Set.mem_singleton_iff]

/-- Witness for C9: monotonicity applied at the pair (10, 40). -/
theorem C9_churn_probability_monotone_range_witness :
    calculate_churn_probability 10 ≤ calculate_churn_probability 40 :=
  C9_churn_probability_monotone_range.1 10 40 (by norm_num)

/-- **C8.** Every row returned by `validate_trips_data` has
`distance > 0`, `duration > 0` and a parsed `created_at` no later than the
current time (rows failing any of these — including rows whose distance or
duration was missing or non-numeric and therefore coerced to 0 — are
removed), and an empty input list yields an empty result. -/
theorem C8_validate_trips_postcondition (data : List TripRecord) (now : ℚ) :
    (∀ r ∈ validate_trips_data data now,
      0 < r.distance ∧ 0 < r.duration ∧
        ∃ t, r.created_at = some t ∧ t ≤ now) ∧
    validate_trips_data [] now = [] := by
  constructor
  · intro r hr
    unfold validate_trips_data at hr
    split at hr
    · simp at hr
    · simp only [List.mem_filter] at hr
      obtain ⟨⟨⟨_, hd⟩, hdu⟩, hc⟩ := hr
      refine ⟨by simpa using hd, by simpa using hdu, ?_⟩
      cases hca : r.created_at with
      | none => rw [hca] at hc; simp at hc
      | some t =>
        rw [hca] at hc
        exact ⟨t, rfl, by simpa using hc⟩
  · rfl

/-- Witness for C8: a concrete valid row survives validation and satisfies
the postcondition. -/
theorem C8_validate_trips_postcondition_witness :
    0 < (CleanTrip.mk (some 1) (some 2) 5 3 (some 1)).distance ∧
    0 < (CleanTrip.mk (some 1) (some 2) 5 3 (some 1)).duration ∧
    ∃ t, (CleanTrip.mk (some 1) (some 2) 5 3 (some 1)).created_at = some t ∧
      t ≤ 10 :=
  (C8_validate_trips_postcondition
      [TripRecord.mk (some 1) (some 2) (some 5) (some 3) (some 1)] 10).1
    (CleanTrip.mk (some 1) (some 2) 5 3 (some 1)) (by decide)

/-- **C6.** `get_active_users` returns the number of distinct `user_id`
values among trips with `created_at ≥ now - days`; it returns 0 when that
set is empty, and returns 0 rather than raising when the backend query
fails. -/
theorem C6_active_users_distinct_count (trips : List DbTrip) (now days : ℚ) :
    (get_active_users trips now days false =
      ((trips.filter fun t => decide (now - days ≤ t.created_at)).map
        DbTrip.user_id).toFinset.card) ∧
    ((trips.filter fun t => decide (now - days ≤ t.created_at)) = [] →
      get_active_users trips now days false = 0) ∧
    get_active_users trips now days true = 0 := by
  refine ⟨?_, ?_, rfl⟩
  · unfold get_active_users
    simp only [Bool.false_eq_true, if_false]
    split
    · rename_i h
      rw [h]
      simp
    · rw [List.card_toFinset]
  · intro h
    unfold get_active_users
    simp only [Bool.false_eq_true, if_false]
    split
    · rfl
    · rename_i h2
      exact absurd h h2

/-- Witness for C6: the empty-result branch at a concrete input. -/
theorem C6_active_users_distinct_count_witness :
    get_active_users [DbTrip.mk 7 0] 10 3 false = 0 :=
  (C6_active_users_distinct_count [DbTrip.mk 7 0] 10 3).2.1
    (by norm_num [List.filter])

theorem str_lower_free : str_lower "free" = "free" := by decide

theorem str_lower_basic : str_lower "basic" = "basic" := by decide

theorem str_lower_premium : str_lower "premium" = "premium" := by decide

theorem str_lower_pro : str_lower "pro" = "pro" := by decide

theorem str_lower_enterprise : str_lower "enterprise" = "enterprise" := by decide

/-- **C7.** For every non-empty profile list, `get_revenue_metrics` returns
`mrr` equal to the sum over the five pricing tiers of count times monthly
price, `arr = 12 * mrr`, `arpu = mrr / total users`, and a tier distribution
whose entries carry the per-tier count, `revenue = count * price` and
`percentage = count / total * 100`; an empty profile list yields the empty
dict (`none`). -/
theorem C7_revenue_metrics (profiles : List String) (h : profiles ≠ []) :
    (∃ m, get_revenue_metrics profiles false = some m ∧
      m.mrr = (profiles.count "free" : ℚ) * 0 +
        (profiles.count "basic" : ℚ) * 9.99 +
        (profiles.count "premium" : ℚ) * 19.99 +
        (profiles.count "pro" : ℚ) * 39.99 +
        (profiles.count "enterprise" : ℚ) * 99.99 ∧
      m.arr = 12 * m.mrr ∧
      m.arpu = m.mrr / (profiles.length : ℚ) ∧
      m.total_users = profiles.length ∧
      (m.tier_distribution.map Prod.fst = pricing.map Prod.fst ∧
        ∀ p ∈ m.tier_distribution,
          p.2.count = profiles.count p.1 ∧
          p.2.revenue = (p.2.count : ℚ) * pricing_get p.1 ∧
          p.2.percentage = (p.2.count : ℚ) / (profiles.length : ℚ) * 100)) ∧
    get_revenue_metrics [] false = none := by
  have hlen : 0 < profiles.length := List.length_pos.mpr h
  constructor
  · unfold get_revenue_metrics
    simp only [Bool.false_eq_true, if_false, if_neg h]
    refine ⟨_, rfl, ?_, ?_, ?_, rfl, ?_, ?_⟩
    · simp only [pricing, tier_counts_get, str_lower_free, str_lower_basic,
        str_lower_premium, str_lower_pro, str_lower_enterprise,
        List.map_cons, List.map_nil, List.sum_cons, List.sum_nil]
      ring
    · ring
    · rw [if_pos hlen]
    · simp [pricing]
    · intro p hp
      simp only [pricing, List.map_cons, List.map_nil, List.mem_cons,
        List.not_mem_nil, or_false] at hp
      rcases hp with rfl | rfl | rfl | rfl | rfl <;>
        refine ⟨rfl, ?_, by rw [if_pos hlen]⟩ <;>
        norm_num [pricing_get, pricing, tier_counts_get]
  · rfl

/-! Helper lemmas for `execute_with_retry` (shared by the C1 and C4
theorems). -/

theorem sleeps_shift (delay : ℚ) (k : ℕ) :
    delay :: (List.range k).map (fun j => delay * 2 * 2 ^ j) =
      (List.range (k + 1)).map fun j => delay * 2 ^ j := by
  rw [List.range_succ_eq_map, List.map_cons, List.map_map]
  congr 1
  · simp
  · apply List.map_congr_left
    intro j _
    simp only [Function.comp_apply, Nat.succ_eq_add_one, pow_succ]
    ring

theorem retryFrom_first_success (f : ℕ → Except ε α) (maxRetries : ℕ) :
    ∀ (k attempt : ℕ) (delay : ℚ) (a : α),
      attempt + k < maxRetries →
      (∀ j, j < k → ∃ e, f (attempt + j) = Except.error e) →
      f (attempt + k) = Except.ok a →
      retryFrom f maxRetries attempt delay =
        ⟨some (Except.ok a), 1, k, (List.range k).map fun j => delay * 2 ^ j⟩ := by
  intro k
  induction k with
  | zero =>
    intro attempt delay a _ _ hok
    rw [retryFrom]
    rw [Nat.add_zero] at hok
    simp [hok]
  | succ m ih =>
    intro attempt delay a hlt hprev hok
    obtain ⟨e, he⟩ := hprev 0 (Nat.succ_pos m)
    rw [Nat.add_zero] at he
    rw [retryFrom]
    simp only [he]
    rw [dif_pos (by omega)]
    rw [ih (attempt + 1) (delay * 2) a (by omega)
      (fun j hj => by
        obtain ⟨e', he'⟩ := hprev (j + 1) (by omega)
        exact ⟨e', by rw [← he']; congr 1; omega⟩)
      (by rw [← hok]; congr 1; omega)]
    simp only [RetryOutcome.mk.injEq, true_and]
    exact sleeps_shift delay m

theorem retryFrom_all_fail (f : ℕ → Except ε α) (maxRetries : ℕ) :
    ∀ (fuel attempt : ℕ) (delay : ℚ),
      maxRetries - attempt = fuel →
      attempt < maxRetries →
      (∀ j, attempt ≤ j → j < maxRetries → ∃ e, f j = Except.error e) →
      retryFrom f maxRetries attempt delay =
        ⟨some (f (maxRetries - 1)), 0, maxRetries - attempt,
          (List.range (maxRetries - 1 - attempt)).map fun j => delay * 2 ^ j⟩ := by
  intro fuel
  induction fuel with
  | zero =>
    intro attempt delay hfuel hlt _
    omega
  | succ m ih =>
    intro attempt delay hfuel hlt hall
    obtain ⟨e, he⟩ := hall attempt le_rfl hlt
    rw [retryFrom]
    simp only [he]
    by_cases hc : attempt + 1 < maxRetries
    · rw [dif_pos hc]
      rw [ih (attempt + 1) (delay * 2) (by omega) hc
        (fun j hj1 hj2 => hall j (by omega) hj2)]
      simp only [RetryOutcome.mk.injEq, true_and]
      refine ⟨by omega, ?_⟩
      have hk : maxRetries - 1 - attempt = (maxRetries - 1 - (attempt + 1)) + 1 := by
        omega
      rw [hk]
      exact sleeps_shift delay _
    · rw [dif_neg hc]
      have ha : attempt = maxRetries - 1 := by omega
      simp only [RetryOutcome.mk.injEq]
      refine ⟨?_, trivial, by omega, ?_⟩
      · rw [ha] at he
        rw [he]
      · have h0 : maxRetries - 1 - attempt = 0 := by omega
        rw [h0]
        simp

/-- **C1.** `execute_with_retry` attempts the wrapped call up to
`max_retries` times (3 in production configuration), sleeping between
attempts with delays doubling from 0.5 seconds; it returns the result of the
first successful attempt, and re-raises the last exception if and only if
all `max_retries` attempts fail. -/
theorem C1_execute_with_retry_backoff (f : ℕ → Except ε α) (maxRetries : ℕ)
    (hmr : 1 ≤ maxRetries) :
    (∀ (i : ℕ) (a : α), i < maxRetries →
      (∀ j, j < i → ∃ e, f j = Except.error e) →
      f i = Except.ok a →
      execute_with_retry maxRetries f =
        ⟨some (Except.ok a), 1, i,
          (List.range i).map fun j => (1/2 : ℚ) * 2 ^ j⟩) ∧
    ((∀ j, j < maxRetries → ∃ e, f j = Except.error e) →
      execute_with_retry maxRetries f =
        ⟨some (f (maxRetries - 1)), 0, maxRetries,
          (List.range (maxRetries - 1)).map fun j => (1/2 : ℚ) * 2 ^ j⟩) := by
  constructor
  · intro i a hi hprev hok
    unfold execute_with_retry
    rw [if_neg (by omega)]
    exact retryFrom_first_success f maxRetries i 0 (1/2) a (by omega)
      (fun j hj => by simpa using hprev j hj) (by simpa using hok)
  · intro hall
    unfold execute_with_retry
    rw [if_neg (by omega)]
    have := retryFrom_all_fail f maxRetries maxRetries 0 (1/2) (by omega)
      (by omega) (fun j _ hj => hall j hj)
    simpa using this

/-- Witness for C1: with `max_retries = 3` (production) and a call failing
once then succeeding, the wrapper returns the success after one failed
attempt and one 0.5-second sleep. -/
theorem C1_execute_with_retry_backoff_witness :
    execute_with_retry production_max_retries
        (fun i => if i = 0 then Except.error "boom" else Except.ok (7 : ℕ)) =
      ⟨some (Except.ok 7), 1, 1,
        (List.range 1).map fun j => (1/2 : ℚ) * 2 ^ j⟩ :=
  (C1_execute_with_retry_backoff
      (fun i => if i = 0 then Except.error "boom" else Except.ok (7 : ℕ))
      production_max_retries (by norm_num [production_max_retries])).1 1 7
    (by norm_num [production_max_retries])
    (fun j hj => ⟨"boom", by
      have : j = 0 := by omega
      subst this
      rfl⟩)
    rfl

theorem retryFrom_succ_isSuccess (f : ℕ → Except ε α) (maxRetries : ℕ) :
    ∀ (fuel attempt : ℕ) (delay : ℚ), maxRetries - attempt = fuel →
      (retryFrom f maxRetries attempt delay).succ =
        if (retryFrom f maxRetries attempt delay).isSuccess then 1 else 0 := by
  intro fuel
  induction fuel with
  | zero =>
    intro attempt delay hfuel
    rw [retryFrom]
    cases hf : f attempt with
    | ok a => simp [RetryOutcome.isSuccess]
    | error e =>
      have hc : ¬attempt + 1 < maxRetries := by omega
      simp [RetryOutcome.isSuccess, hc]
  | succ m ih =>
    intro attempt delay hfuel
    rw [retryFrom]
    cases hf : f attempt with
    | ok a => simp [RetryOutcome.isSuccess]
    | error e =>
      by_cases hc : attempt + 1 < maxRetries
      · have h := ih (attempt + 1) (delay * 2) (by omega)
        simp only [RetryOutcome.isSuccess] at h ⊢
        simpa [hc] using h
      · simp [RetryOutcome.isSuccess, hc]

theorem execute_succ_isSuccess (maxRetries : ℕ) (f : ℕ → Except ε α) :
    (execute_with_retry maxRetries f).succ =
      if (execute_with_retry maxRetries f).isSuccess then 1 else 0 := by
  unfold execute_with_retry
  split
  · simp [RetryOutcome.isSuccess]
  · exact retryFrom_succ_isSuccess f maxRetries (maxRetries - 0) 0 (1/2) rfl

theorem run_queries_foldl (maxRetries : ℕ) (fs : List (ℕ → Except ε α)) :
    ∀ c : MgrCounters,
      fs.foldl
        (fun c f =>
          let r := execute_with_retry maxRetries f
          ⟨c.query_count + r.succ, c.query_errors + r.errs⟩) c =
      ⟨c.query_count +
        fs.countP (fun f => (execute_with_retry maxRetries f).isSuccess),
       c.query_errors +
        (fs.map fun f => (execute_with_retry maxRetries f).errs).sum⟩ := by
  induction fs with
  | nil => intro c; simp
  | cons f fs ih =>
    intro c
    rw [List.foldl_cons, ih]
    simp only [List.countP_cons, List.map_cons, List.sum_cons,
      MgrCounters.mk.injEq]
    constructor
    · rw [execute_succ_isSuccess maxRetries f]
      by_cases hs : (execute_with_retry maxRetries f).isSuccess <;>
        simp [hs] <;> omega
    · omega

/-- **C4.** After any sequence of `execute_with_retry` calls since the last
reset, `total_queries` is the number of calls that eventually returned a
result, `failed_queries` is the total number of raising attempts (each
raising attempt counted once, including attempts later retried
successfully: a call that first succeeds at attempt `i` contributes exactly
`i` failed attempts, a call whose attempts all fail contributes
`max_retries`), and `success_rate` is
`(total_queries - failed_queries) / total_queries * 100` when
`total_queries > 0` and `0` otherwise. -/
theorem C4_query_metrics (maxRetries : ℕ) (fs : List (ℕ → Except ε α)) :
    ((get_metrics (run_queries maxRetries fs)).total_queries =
      fs.countP (fun f => (execute_with_retry maxRetries f).isSuccess)) ∧
    ((get_metrics (run_queries maxRetries fs)).failed_queries =
      (fs.map fun f => (execute_with_retry maxRetries f).errs).sum) ∧
    (∀ (f : ℕ → Except ε α) (i : ℕ) (a : α), i < maxRetries →
      (∀ j, j < i → ∃ e, f j = Except.error e) → f i = Except.ok a →
      (execute_with_retry maxRetries f).errs = i ∧
        (execute_with_retry maxRetries f).isSuccess = true) ∧
    (∀ f : ℕ → Except ε α, 1 ≤ maxRetries →
      (∀ j, j < maxRetries → ∃ e, f j = Except.error e) →
      (execute_with_retry maxRetries f).errs = maxRetries ∧
        (execute_with_retry maxRetries f).isSuccess = false) ∧
    ((get_metrics (run_queries maxRetries fs)).rate =
      if 0 < (get_metrics (run_queries maxRetries fs)).total_queries then
        (((get_metrics (run_queries maxRetries fs)).total_queries : ℚ) -
          ((get_metrics (run_queries maxRetries fs)).failed_queries : ℚ)) /
          ((get_metrics (run_queries maxRetries fs)).total_queries : ℚ) * 100
      else 0) := by
  have hrun : run_queries maxRetries fs =
      ⟨fs.countP (fun f => (execute_with_retry maxRetries f).isSuccess),
       (fs.map fun f => (execute_with_retry maxRetries f).errs).sum⟩ := by
    unfold run_queries
    rw [run_queries_foldl maxRetries fs reset_metrics]
    simp [reset_metrics]
  refine ⟨by rw [hrun]; rfl, by rw [hrun]; rfl, ?_, ?_, rfl⟩
  · intro f i a hi hprev hok
    have hexec : execute_with_retry maxRetries f =
        ⟨some (Except.ok a), 1, i, (List.range i).map fun j => (1/2 : ℚ) * 2 ^ j⟩ := by
      unfold execute_with_retry
      rw [if_neg (by omega)]
      exact retryFrom_first_success f maxRetries i 0 (1/2) a (by omega)
        (fun j hj => by simpa using hprev j hj) (by simpa using hok)
    rw [hexec]
    exact ⟨rfl, rfl⟩
  · intro f hmr hall
    have hexec : execute_with_retry maxRetries f =
        ⟨some (f (maxRetries - 1)), 0, maxRetries,
          (List.range (maxRetries - 1)).map fun j => (1/2 : ℚ) * 2 ^ j⟩ := by
      unfold execute_with_retry
      rw [if_neg (by omega)]
      have := retryFrom_all_fail f maxRetries maxRetries 0 (1/2) (by omega)
        (by omega) (fun j _ hj => hall j hj)
      simpa using this
    rw [hexec]
    obtain ⟨e, he⟩ := hall (maxRetries - 1) (by omega)
    refine ⟨rfl, ?_⟩
    simp [RetryOutcome.isSuccess, he]

/-- Witness for C4: a call succeeding at its first attempt contributes zero
failed attempts and counts as a successful execution. -/
theorem C4_query_metrics_witness :
    (execute_with_retry production_max_retries
        (fun _ => Except.ok (5 : ℕ) (ε := String))).errs = 0 ∧
    (execute_with_retry production_max_retries
        (fun _ => Except.ok (5 : ℕ) (ε := String))).isSuccess = true :=
  (C4_query_metrics production_max_retries
      [fun _ => Except.ok (5 : ℕ) (ε := String)]).2.2.1
    (fun _ => Except.ok (5 : ℕ) (ε := String)) 0 5
    (by norm_num [production_max_retries])
    (fun j hj => absurd hj (by omega)) rfl

/-- Witness for C7 at the one-element profile list `["basic"]`. -/
theorem C7_revenue_metrics_witness :
    ∃ m, get_revenue_metrics ["basic"] false = some m ∧
      m.mrr = ((["basic"] : List String).count "free" : ℚ) * 0 +
        ((["basic"] : List String).count "basic" : ℚ) * 9.99 +
        ((["basic"] : List String).count "premium" : ℚ) * 19.99 +
        ((["basic"] : List String).count "pro" : ℚ) * 39.99 +
        ((["basic"] : List String).count "enterprise" : ℚ) * 99.99 ∧
      m.arr = 12 * m.mrr ∧
      m.arpu = m.mrr / ((["basic"] : List String).length : ℚ) ∧
      m.total_users = (["basic"] : List String).length ∧
      (m.tier_distribution.map Prod.fst = pricing.map Prod.fst ∧
        ∀ p ∈ m.tier_distribution,
          p.2.count = (["basic"] : List String).count p.1 ∧
          p.2.revenue = (p.2.count : ℚ) * pricing_get p.1 ∧
          p.2.percentage =
            (p.2.count : ℚ) / ((["basic"] : List String).length : ℚ) * 100) :=
  (C7_revenue_metrics ["basic"] (by decide)).1

/-- **C5 (counterexample).** The claim "is_healthy returns a boolean for
every call" is false: when a health check is due, the stored client is not a
`Client` instance and nothing raises, the `try` body of
`perform_health_check` falls through without a `return`, so `is_healthy`
returns Python `None`, not a boolean. -/
theorem C5_is_healthy_none_counterexample :
    (is_healthy (PoolState.mk false PyConnectionStatus.disconnected none 0)
        false 0).1 = none := rfl

/-- **C5 (amended).** `is_healthy` performs a fresh health check exactly when
no check has ever run or the last one is older than the 5-minute interval,
and otherwise returns whether the cached status is CONNECTED, leaving state
unchanged; `perform_health_check` returns True (status CONNECTED,
`failed_attempts := 0`, timestamp updated) when the stored client is a valid
Supabase `Client`, returns False (`failed_attempts` incremented, status
ERROR) when the check raises, and in the remaining case (client not a
`Client` instance, no exception) returns Python `None`; consequently
`is_healthy` returns a boolean whenever the client is a valid `Client` or
the check raises. -/
theorem C5_health_check_amended (s : PoolState) (raises : Bool) (now : ℚ) :
    (check_due s now → is_healthy s raises now = perform_health_check s raises now) ∧
    (¬check_due s now →
      is_healthy s raises now = (some (decide (s.status = .connected)), s)) ∧
    (raises = true → perform_health_check s raises now =
      (some false,
        { s with failed_attempts := s.failed_attempts + 1, status := .error })) ∧
    (raises = false → s.isClientInstance = true →
      perform_health_check s raises now =
        (some true,
          { s with status := .connected, failed_attempts := 0,
                   last_health_check := some now })) ∧
    (raises = false → s.isClientInstance = false →
      perform_health_check s raises now = (none, s)) ∧
    (s.isClientInstance = true ∨ raises = true →
      ∃ b, (is_healthy s raises now).1 = some b) := by
  have hperf : ∀ b : Bool, s.isClientInstance = true ∨ raises = true →
      ∃ c, (perform_health_check s raises now).1 = some c := by
    intro _ h
    unfold perform_health_check
    rcases h with hcl | hraise
    · by_cases hr : raises = true
      · rw [if_pos hr]
        exact ⟨false, rfl⟩
      · rw [if_neg hr, if_pos hcl]
        exact ⟨true, rfl⟩
    · rw [if_pos hraise]
      exact ⟨false, rfl⟩
  refine ⟨?_, ?_, ?_, ?_, ?_, ?_⟩
  · intro hdue
    unfold is_healthy
    cases hlc : s.last_health_check with
    | none => rfl
    | some t =>
      dsimp only
      rcases hdue with hnone | ⟨t', ht', hgt⟩
      · rw [hlc] at hnone
        exact absurd hnone (by simp)
      · rw [hlc] at ht'
        injection ht' with ht'
        subst ht'
        rw [if_pos hgt]
  · intro hnotdue
    unfold is_healthy
    cases hlc : s.last_health_check with
    | none => exact absurd (Or.inl hlc) hnotdue
    | some t =>
      dsimp only
      rw [if_neg fun hgt => hnotdue (Or.inr ⟨t, hlc, hgt⟩)]
  · intro hraise
    unfold perform_health_check
    rw [if_pos hraise]
  · intro hr hcl
    unfold perform_health_check
    rw [if_neg (by simp [hr]), if_pos hcl]
  · intro hr hcl
    unfold perform_health_check
    rw [if_neg (by simp [hr]), if_neg (by simp [hcl])]
  · intro h
    unfold is_healthy
    cases hlc : s.last_health_check with
    | none => exact hperf true h
    | some t =>
      dsimp only
      split
      · exact hperf true h
      · exact ⟨decide (s.status = .connected), rfl⟩

/-- Witness for the amended C5: with a valid client and no exception, a due
check returns True, sets CONNECTED, zeroes `failed_attempts` and records the
check time. -/
theorem C5_health_check_amended_witness :
    perform_health_check
        (PoolState.mk true PyConnectionStatus.disconnected none 4) false 0 =
      (some true, PoolState.mk true PyConnectionStatus.connected (some 0) 0) :=
  (C5_health_check_amended
      (PoolState.mk true PyConnectionStatus.disconnected none 4) false
      0).2.2.2.1 rfl rfl

/-! Helper lemmas for the `SupabaseManager` singleton (C3). -/

theorem construct_objId (i : MgrInstance) (fresh : ℕ) (env : PyEnvironment)
    (configOk clientOk : Bool) :
    (construct (some i) fresh env configOk clientOk).inst.objId = i.objId := by
  unfold construct
  dsimp only
  split_ifs <;> rfl

theorem construct_none_objId (fresh : ℕ) (env : PyEnvironment)
    (configOk clientOk : Bool) :
    (construct none fresh env configOk clientOk).inst.objId = fresh := by
  unfold construct
  dsimp only
  split_ifs <;> rfl

theorem construct_of_initialized (i : MgrInstance) (fresh : ℕ)
    (env : PyEnvironment) (configOk clientOk : Bool)
    (h : i.initialized = true) :
    construct (some i) fresh env configOk clientOk = ⟨true, false, false, i⟩ := by
  unfold construct
  dsimp only
  rw [if_pos h]

theorem construct_completed_initialized (g : Option MgrInstance) (fresh : ℕ)
    (env : PyEnvironment) (configOk clientOk : Bool)
    (h : (construct g fresh env configOk clientOk).bodyCompleted = true) :
    (construct g fresh env configOk clientOk).inst.initialized = true := by
  cases g with
  | none =>
    unfold construct at h ⊢
    dsimp only at h ⊢
    split_ifs at h ⊢ <;> simp_all
  | some i =>
    unfold construct at h ⊢
    dsimp only at h ⊢
    split_ifs at h ⊢ <;> simp_all

/-- All outcomes of a run started from an existing instance keep its
identity. -/
theorem run_constructions_objId (cs : List (PyEnvironment × Bool × Bool)) :
    ∀ (i : MgrInstance) (fresh : ℕ),
      ∀ o ∈ (run_constructions (some i) fresh cs).2, o.inst.objId = i.objId := by
  induction cs with
  | nil => intro i fresh o ho; simp [run_constructions] at ho
  | cons c rest ih =>
    intro i fresh o ho
    obtain ⟨env, configOk, clientOk⟩ := c
    simp only [run_constructions, List.mem_cons] at ho
    rcases ho with rfl | ho
    · exact construct_objId i fresh env configOk clientOk
    · rw [ih _ (fresh + 1) o ho, construct_objId]

/-- Once the stored instance is initialized, no later construction completes
the body. -/
theorem run_constructions_no_completion (cs : List (PyEnvironment × Bool × Bool)) :
    ∀ (i : MgrInstance) (fresh : ℕ), i.initialized = true →
      ((run_constructions (some i) fresh cs).2.countP
        (fun o => o.bodyCompleted)) = 0 := by
  induction cs with
  | nil => intro i fresh _; simp [run_constructions]
  | cons c rest ih =>
    intro i fresh hinit
    obtain ⟨env, configOk, clientOk⟩ := c
    simp only [run_constructions, List.countP_cons]
    rw [construct_of_initialized i fresh env configOk clientOk hinit]
    simp only [ih i (fresh + 1) hinit]
    rfl

theorem run_constructions_completion_le_one
    (cs : List (PyEnvironment × Bool × Bool)) :
    ∀ (g : Option MgrInstance) (fresh : ℕ),
      ((run_constructions g fresh cs).2.countP
        (fun o => o.bodyCompleted)) ≤ 1 := by
  induction cs with
  | nil => intro g fresh; simp [run_constructions]
  | cons c rest ih =>
    intro g fresh
    obtain ⟨env, configOk, clientOk⟩ := c
    simp only [run_constructions, List.countP_cons]
    by_cases hc : (construct g fresh env configOk clientOk).bodyCompleted = true
    · rw [run_constructions_no_completion rest _ (fresh + 1)
        (construct_completed_initialized g fresh env configOk clientOk hc)]
      simp [hc]
    · have : ¬((fun o => o.bodyCompleted) (construct g fresh env configOk clientOk) = true) := hc
      simp only [this, if_false]
      simpa using ih (some (construct g fresh env configOk clientOk).inst) (fresh + 1)

/-- Every outcome of a run from the fresh Python state has the identity of
the first allocation. -/
theorem run_constructions_all_objId (cs : List (PyEnvironment × Bool × Bool))
    (fresh : ℕ) :
    ∀ o ∈ (run_constructions none fresh cs).2, o.inst.objId = fresh := by
  cases cs with
  | nil => intro o ho; simp [run_constructions] at ho
  | cons c rest =>
    intro o ho
    obtain ⟨env, configOk, clientOk⟩ := c
    simp only [run_constructions, List.mem_cons] at ho
    rcases ho with rfl | ho
    · exact construct_none_objId fresh env configOk clientOk
    · rw [run_constructions_objId rest _ (fresh + 1) o ho, construct_none_objId]

/-- **C3.** `SupabaseManager` is a singleton: across any sequence of
constructions with any environment arguments, every construction yields the
same object (identity allocated by the first `__new__` and never replaced);
the guarded `__init__` body completes at most once; and once the instance is
initialized, any further construction (with any environment) runs no part of
the body and leaves the whole instance state — `env`, `config`,
`query_count`, `query_errors` — unchanged. -/
theorem C3_singleton_manager (fresh : ℕ)
    (cs : List (PyEnvironment × Bool × Bool)) :
    (∀ o ∈ (run_constructions none fresh cs).2,
      ∀ o' ∈ (run_constructions none fresh cs).2,
        o.inst.objId = o'.inst.objId) ∧
    ((run_constructions none fresh cs).2.countP
      (fun o => o.bodyCompleted) ≤ 1) ∧
    (∀ (i : MgrInstance) (fr : ℕ) (env : PyEnvironment) (co ko : Bool),
      i.initialized = true →
      construct (some i) fr env co ko = ⟨true, false, false, i⟩) := by
  refine ⟨?_, run_constructions_completion_le_one cs none fresh,
    fun i fr env co ko h => construct_of_initialized i fr env co ko h⟩
  intro o ho o' ho'
  rw [run_constructions_all_objId cs fresh o ho,
    run_constructions_all_objId cs fresh o' ho']

/-- Witness for C3: a second construction with a different environment on an
already-initialized instance returns it unchanged and skips the body. -/
theorem C3_singleton_manager_witness :
    construct
        (some (MgrInstance.mk 0 PyEnvironment.production true
          (some PyEnvironment.production) (some 0) (some 0) true)) 1
        PyEnvironment.staging true true =
      ⟨true, false, false,
        MgrInstance.mk 0 PyEnvironment.production true
          (some PyEnvironment.production) (some 0) (some 0) true⟩ :=
  (C3_singleton_manager 0 []).2.2
    (MgrInstance.mk 0 PyEnvironment.production true
      (some PyEnvironment.production) (some 0) (some 0) true) 1
    PyEnvironment.staging true true rfl

/-! Helper lemmas for the rate limiter (C2). -/

theorem rl_prune_suffix (cur : ℚ) :
    ∀ ts : List ℚ, ts.Sorted (· ≤ ·) → rl_prune cur ts <:+ ts := by
  intro ts
  induction ts with
  | nil => intro _; exact List.suffix_rfl
  | cons x rest ih =>
    intro hs
    rw [List.sorted_cons] at hs
    by_cases hp : cur - x < 1
    · have hall : rl_prune cur (x :: rest) = x :: rest := by
        unfold rl_prune
        rw [List.filter_eq_self]
        intro a ha
        rcases List.mem_cons.mp ha with rfl | ha'
        · simpa using hp
        · have : x ≤ a := hs.1 a ha'
          simp only [decide_eq_true_eq]
          linarith
      rw [hall]
    · have hdrop : rl_prune cur (x :: rest) = rl_prune cur rest := by
        unfold rl_prune
        rw [List.filter_cons, if_neg (by simpa using hp)]
      rw [hdrop]
      exact (ih hs.2).trans (List.suffix_cons x rest)

theorem sorted_suffix {l l' : List ℚ} (hs : l.Sorted (· ≤ ·)) (h : l' <:+ l) :
    l'.Sorted (· ≤ ·) :=
  hs.sublist h.sublist

theorem gapProp_suffix {n : ℕ} {l l' : List ℚ} (hg : gapProp n l)
    (h : l' <:+ l) : gapProp n l' := by
  obtain ⟨pre, rfl⟩ := h
  intro i j hj hij
  have hi : i < l'.length := lt_of_le_of_lt (le_trans (Nat.le_add_right i n) hij) hj
  have e1 : l'.getD i 0 = (pre ++ l').getD (pre.length + i) 0 := by
    rw [List.getD_append_right pre l' 0 (pre.length + i) (Nat.le_add_right _ _)]
    congr 1
    omega
  have e2 : l'.getD j 0 = (pre ++ l').getD (pre.length + j) 0 := by
    rw [List.getD_append_right pre l' 0 (pre.length + j) (Nat.le_add_right _ _)]
    congr 1
    omega
  rw [e1, e2]
  exact hg (pre.length + i) (pre.length + j)
    (by rw [List.length_append]; omega) (by omega)

theorem mem_rl_prune {cur t : ℚ} {ts : List ℚ} (h : t ∈ rl_prune cur ts) :
    t ∈ ts ∧ cur - t < 1 := by
  unfold rl_prune at h
  rw [List.mem_filter] at h
  exact ⟨h.1, by simpa using h.2⟩

theorem rl_prune_length_le {n : ℕ} {ts : List ℚ} {last cur : ℚ}
    (hinv : rlInv n ts last) (hcur : last ≤ cur) :
    (rl_prune cur ts).length ≤ n := by
  obtain ⟨hs, hmem, hg⟩ := hinv
  by_contra hlen
  push_neg at hlen
  have hsuf := rl_prune_suffix cur ts hs
  have hg' := gapProp_suffix hg hsuf
  have h0 : (rl_prune cur ts).getD 0 0 + 1 ≤ (rl_prune cur ts).getD n 0 :=
    hg' 0 n hlen (by omega)
  have hmem0 : (rl_prune cur ts).getD 0 0 ∈ rl_prune cur ts := by
    rw [List.getD_eq_getElem _ _ (by omega)]
    exact List.getElem_mem _
  have hmemn : (rl_prune cur ts).getD n 0 ∈ rl_prune cur ts := by
    rw [List.getD_eq_getElem _ _ hlen]
    exact List.getElem_mem _
  have h1 := mem_rl_prune hmem0
  have h2 := mem_rl_prune hmemn
  have h3 : (rl_prune cur ts).getD n 0 ≤ last := hmem _ h2.1
  linarith [h1.2]

theorem headI_eq_getD (l : List ℚ) (h : l ≠ []) : l.headI = l.getD 0 0 := by
  cases l with
  | nil => exact absurd rfl h
  | cons a t => rfl

theorem headI_mem_of_ne_nil (l : List ℚ) (h : l ≠ []) : l.headI ∈ l := by
  cases l with
  | nil => exact absurd rfl h
  | cons a t => exact List.mem_cons_self a t

/-- A `wait_if_needed` step preserves the rate-limiter invariant, and its
second clock read is no earlier than its first. -/
theorem wait_step {n : ℕ} {ts : List ℚ} {last cur slack : ℚ}
    (hn : 1 ≤ n) (hinv : rlInv n ts last) (hcur : last ≤ cur)
    (hslack : 0 ≤ slack) :
    rlInv n (wait_if_needed n ts cur slack).call_times
      (wait_if_needed n ts cur slack).admitted ∧
    cur ≤ (wait_if_needed n ts cur slack).admitted := by
  obtain ⟨hs, hmem, hg⟩ := hinv
  have hsuf := rl_prune_suffix cur ts hs
  have hPs : (rl_prune cur ts).Sorted (· ≤ ·) := sorted_suffix hs hsuf
  have hPg : gapProp n (rl_prune cur ts) := gapProp_suffix hg hsuf
  have hPmem : ∀ t ∈ rl_prune cur ts, t ≤ cur := fun t ht =>
    le_trans (hmem t (mem_rl_prune ht).1) hcur
  have hPlen : (rl_prune cur ts).length ≤ n :=
    rl_prune_length_le ⟨hs, hmem, hg⟩ hcur
  unfold wait_if_needed
  dsimp only
  by_cases hle : n ≤ (rl_prune cur ts).length
  · have hlen : (rl_prune cur ts).length = n := le_antisymm hPlen hle
    have hne : rl_prune cur ts ≠ [] := by
      intro h
      rw [h] at hlen
      simp at hlen
      omega
    have hhead := headI_mem_of_ne_nil _ hne
    have hh1 : cur - (rl_prune cur ts).headI < 1 := (mem_rl_prune hhead).2
    have hhcur : (rl_prune cur ts).headI ≤ cur := hPmem _ hhead
    have hpos : 0 < 1 - (cur - (rl_prune cur ts).headI) := by linarith
    rw [if_pos hle, if_pos hpos]
    dsimp only
    have hcur2 : cur ≤ cur + (1 - (cur - (rl_prune cur ts).headI)) + slack := by
      linarith
    refine ⟨⟨?_, ?_, ?_⟩, hcur2⟩
    · rw [List.Sorted, List.pairwise_append]
      refine ⟨hPs, List.pairwise_singleton _ _, ?_⟩
      intro a ha b hb
      rw [List.mem_singleton] at hb
      subst hb
      have := hPmem a ha
      linarith
    · intro t ht
      rcases List.mem_append.mp ht with h1 | h1
      · have := hPmem t h1
        linarith
      · rw [List.mem_singleton] at h1
        subst h1
        exact le_refl _
    · intro i j hj hij
      rw [List.length_append, List.length_singleton, hlen] at hj
      have hjn : j = n := by omega
      have hi0 : i = 0 := by omega
      rw [hjn, hi0]
      have e1 : ((rl_prune cur ts) ++
          [cur + (1 - (cur - (rl_prune cur ts).headI)) + slack]).getD 0 0 =
          (rl_prune cur ts).getD 0 0 :=
        List.getD_append _ _ _ _ (by omega)
      have e2 : ((rl_prune cur ts) ++
          [cur + (1 - (cur - (rl_prune cur ts).headI)) + slack]).getD n 0 =
          cur + (1 - (cur - (rl_prune cur ts).headI)) + slack := by
        rw [List.getD_append_right _ _ _ _ (by omega), hlen]
        simp
      rw [e1, e2, ← headI_eq_getD _ hne]
      linarith
  · rw [if_neg hle]
    dsimp only
    refine ⟨⟨?_, ?_, ?_⟩, le_refl cur⟩
    · rw [List.Sorted, List.pairwise_append]
      refine ⟨hPs, List.pairwise_singleton _ _, ?_⟩
      intro a ha b hb
      rw [List.mem_singleton] at hb
      subst hb
      exact hPmem a ha
    · intro t ht
      rcases List.mem_append.mp ht with h1 | h1
      · exact hPmem t h1
      · rw [List.mem_singleton] at h1
        subst h1
        exact le_refl _
    · intro i j hj hij
      rw [List.length_append, List.length_singleton] at hj
      by_cases hjP : j < (rl_prune cur ts).length
      · have hiP : i < (rl_prune cur ts).length := by omega
        rw [List.getD_append _ _ _ _ hiP, List.getD_append _ _ _ _ hjP]
        exact hPg i j hjP hij
      · omega

theorem rlInv_init (n : ℕ) : rlInv n [] 0 :=
  ⟨List.sorted_nil, by simp, fun _ j hj _ => absurd hj (by simp)⟩

theorem rl_run_from_inv (n : ℕ) (hn : 1 ≤ n) :
    ∀ (inputs : List (ℚ × ℚ)) (ts : List ℚ) (last : ℚ),
      rlInv n ts last → valid_inputs n ts last inputs = true →
      rlInv n (rl_run_from n ts last inputs).1 (rl_run_from n ts last inputs).2 := by
  intro inputs
  induction inputs with
  | nil => intro ts last hinv _; exact hinv
  | cons p rest ih =>
    intro ts last hinv hv
    obtain ⟨cur, slack⟩ := p
    unfold valid_inputs at hv
    simp only [Bool.and_eq_true, decide_eq_true_eq] at hv
    obtain ⟨⟨hc, hsl⟩, hv'⟩ := hv
    unfold rl_run_from
    dsimp only
    exact ih _ _ (wait_step hn hinv hc hsl).1 hv'

/-- In a sorted list whose entries satisfy the 1-second gap property, at most
`n` entries lie in any half-open window `(a, a+1]`. -/
theorem window_count_le {n : ℕ} {l : List ℚ} (hs : l.Sorted (· ≤ ·))
    (hg : gapProp n l) (a : ℚ) :
    (l.filter fun t => decide (a < t ∧ t ≤ a + 1)).length ≤ n := by
  by_cases hF : l.filter (fun t => decide (a < t ∧ t ≤ a + 1)) = []
  · rw [hF]
    simp
  · have hex : ∃ x ∈ l, (fun t : ℚ => decide (a < t ∧ t ≤ a + 1)) x = true := by
      obtain ⟨x, hx⟩ := List.exists_mem_of_ne_nil _ hF
      exact ⟨x, (List.mem_filter.mp hx).1, (List.mem_filter.mp hx).2⟩
    have hi0 : l.findIdx (fun t : ℚ => decide (a < t ∧ t ≤ a + 1)) < l.length :=
      List.findIdx_lt_length_of_exists hex
    have hpi0 := @List.findIdx_getElem _ (fun t : ℚ => decide (a < t ∧ t ≤ a + 1)) l hi0
    rw [decide_eq_true_eq] at hpi0
    have hdrop : (l.drop (l.findIdx (fun t : ℚ => decide (a < t ∧ t ≤ a + 1)) + n)).filter
        (fun t : ℚ => decide (a < t ∧ t ≤ a + 1)) = [] := by
      rw [List.filter_eq_nil_iff]
      intro x hx
      rw [List.mem_iff_getElem] at hx
      obtain ⟨k, hk, rfl⟩ := hx
      rw [List.length_drop] at hk
      rw [List.getElem_drop]
      rw [decide_eq_true_eq]
      intro hpx
      have hgap := hg (l.findIdx (fun t : ℚ => decide (a < t ∧ t ≤ a + 1)))
        (l.findIdx (fun t : ℚ => decide (a < t ∧ t ≤ a + 1)) + n + k)
        (by omega) (by omega)
      rw [List.getD_eq_getElem _ _ (by omega), List.getD_eq_getElem _ _ (by omega)]
        at hgap
      have h1 : a < l[l.findIdx (fun t : ℚ => decide (a < t ∧ t ≤ a + 1))] := hpi0.1
      have h2 : l[l.findIdx (fun t : ℚ => decide (a < t ∧ t ≤ a + 1)) + n + k] ≤ a + 1 :=
        hpx.2
      linarith
    have htake : (l.take (l.findIdx (fun t : ℚ => decide (a < t ∧ t ≤ a + 1)))).filter
        (fun t : ℚ => decide (a < t ∧ t ≤ a + 1)) = [] := by
      rw [List.filter_eq_nil_iff]
      intro x hx
      rw [List.mem_iff_getElem] at hx
      obtain ⟨k, hk, rfl⟩ := hx
      rw [List.length_take] at hk
      rw [List.getElem_take]
      have hkf : k < l.findIdx (fun t : ℚ => decide (a < t ∧ t ≤ a + 1)) :=
        lt_of_lt_of_le hk (Nat.min_le_left _ _)
      rw [decide_eq_true_eq]
      intro hcontra
      have hfalse := List.not_of_lt_findIdx hkf
      rw [decide_eq_false_iff_not] at hfalse
      exact hfalse hcontra
    have hsplit1 : (l.filter (fun t : ℚ => decide (a < t ∧ t ≤ a + 1))).length =
        ((l.take (l.findIdx (fun t : ℚ => decide (a < t ∧ t ≤ a + 1)) + n)).filter
          (fun t : ℚ => decide (a < t ∧ t ≤ a + 1))).length := by
      conv_lhs => rw [← List.take_append_drop
        (l.findIdx (fun t : ℚ => decide (a < t ∧ t ≤ a + 1)) + n) l]
      rw [List.filter_append, hdrop, List.append_nil]
    have hsplit2 : (l.take (l.findIdx (fun t : ℚ => decide (a < t ∧ t ≤ a + 1)) + n)).filter
        (fun t : ℚ => decide (a < t ∧ t ≤ a + 1)) =
        ((l.take (l.findIdx (fun t : ℚ => decide (a < t ∧ t ≤ a + 1)) + n)).drop
          (l.findIdx (fun t : ℚ => decide (a < t ∧ t ≤ a + 1)))).filter
          (fun t : ℚ => decide (a < t ∧ t ≤ a + 1)) := by
      conv_lhs => rw [← List.take_append_drop
        (l.findIdx (fun t : ℚ => decide (a < t ∧ t ≤ a + 1)))
        (l.take (l.findIdx (fun t : ℚ => decide (a < t ∧ t ≤ a + 1)) + n))]
      rw [List.filter_append, List.take_take,
        Nat.min_eq_left (Nat.le_add_right _ _), htake, List.nil_append]
    rw [hsplit1, hsplit2]
    calc (((l.take (l.findIdx (fun t : ℚ => decide (a < t ∧ t ≤ a + 1)) + n)).drop
          (l.findIdx (fun t : ℚ => decide (a < t ∧ t ≤ a + 1)))).filter
          (fun t : ℚ => decide (a < t ∧ t ≤ a + 1))).length
        ≤ ((l.take (l.findIdx (fun t : ℚ => decide (a < t ∧ t ≤ a + 1)) + n)).drop
            (l.findIdx (fun t : ℚ => decide (a < t ∧ t ≤ a + 1)))).length :=
          List.length_filter_le _ _
      _ ≤ n := by
          rw [List.length_drop, List.length_take]
          omega

/-- **C2.** After any well-formed sequence of `wait_if_needed` calls, the
recorded `call_times` list never holds more than `calls_per_second` entries
within any rolling one-second window (the window `(a, a+1]`, matching the
code's strict `current_time - t < 1.0` pruning); from any reachable state,
the next call sleeps exactly when the pruned window already holds
`calls_per_second` entries; and every call appends its admission time to the
window. -/
theorem C2_rate_limiter_window (n : ℕ) (hn : 1 ≤ n) (inputs : List (ℚ × ℚ))
    (hv : valid_inputs n [] 0 inputs = true) :
    (∀ a : ℚ,
      ((rl_run n inputs).1.filter fun t =>
        decide (a < t ∧ t ≤ a + 1)).length ≤ n) ∧
    (∀ cur slack : ℚ, (rl_run n inputs).2 ≤ cur → 0 ≤ slack →
      ((wait_if_needed n (rl_run n inputs).1 cur slack).slept = true ↔
        (rl_prune cur (rl_run n inputs).1).length = n)) ∧
    (∀ cur slack : ℚ,
      (wait_if_needed n (rl_run n inputs).1 cur slack).call_times =
        rl_prune cur (rl_run n inputs).1 ++
          [(wait_if_needed n (rl_run n inputs).1 cur slack).admitted]) := by
  have hinv : rlInv n (rl_run n inputs).1 (rl_run n inputs).2 :=
    rl_run_from_inv n hn inputs [] 0 (rlInv_init n) hv
  obtain ⟨hs, hmem, hg⟩ := hinv
  refine ⟨fun a => window_count_le hs hg a, ?_, ?_⟩
  · intro cur slack hcur hslack
    have hPlen := rl_prune_length_le ⟨hs, hmem, hg⟩ hcur
    constructor
    · intro hslept
      by_contra hne
      have hlt : (rl_prune cur (rl_run n inputs).1).length < n := by omega
      unfold wait_if_needed at hslept
      rw [if_neg (by omega)] at hslept
      simp at hslept
    · intro hlen
      unfold wait_if_needed
      dsimp only
      have hne : rl_prune cur (rl_run n inputs).1 ≠ [] := by
        intro h
        rw [h] at hlen
        simp at hlen
        omega
      have hh := headI_mem_of_ne_nil _ hne
      have hh1 := (mem_rl_prune hh).2
      rw [if_pos (by omega), if_pos (by linarith)]
  · intro cur slack
    unfold wait_if_needed
    dsimp only
    split
    · split
      · rfl
      · rfl
    · rfl

/-- Witness for C2 with `calls_per_second = 1` and two back-to-back calls at
time 0: the recorded window never holds more than one entry per second. -/
theorem C2_rate_limiter_window_witness :
    ((rl_run 1 [((0 : ℚ), (0 : ℚ)), (0, 0)]).1.filter fun t =>
      decide ((0 : ℚ) < t ∧ t ≤ 0 + 1)).length ≤ 1 :=
  (C2_rate_limiter_window 1 le_rfl [((0 : ℚ), (0 : ℚ)), (0, 0)]
    (by decide)).1 0

end DashboardMTP
